import Mathlib

/-
Verification of the celtic-knot spline-generation core (src/celtic-knot.py).

The traversal in `create_bezier`/`make_loop` is embedded shallowly.  Every
control decision of the Python code (visited flags, boundary skipping,
radial crossing, direction recomputation, assertions) depends only on the
mesh topology, never on coordinates, so the embedding is split in two
layers:

* a computable topological layer (`fwdStep`, `backStep`, `makeLoopAux`,
  `scanLoops`, `scanFaces`, `createBezierTopo`) producing, per traversal
  step, an `Emission` record (the half-edge pair crossed and the
  recomputed direction) — this mirrors the `while True` loop of
  `make_loop` and the outer face scan of `create_bezier`;
* a geometric layer over ℝ (`position`, handle computation) mapping each
  `Emission` to the control point the Python code stores, idealising
  Blender's float vectors as real 3-vectors.

Python `assert` failures and out-of-bound indexing are modelled as
`PyErr` values; the unbounded `while` loops carry explicit fuel, with
fuel exhaustion a distinct error (the termination theorem shows fuel
2·n+1 is never exhausted on well-formed meshes).

The per-half-edge dictionaries `loops_entered`/`loops_exited` are
instrumented as natural-number counters (`enteredCount`, `exitedCount`);
the boolean read by the code is `count ≠ 0`, and the counters let
"marked exactly once" be stated directly.
-/

namespace CelticKnot

/-- Topological view of a bmesh: `n` half-edges (bmesh "loops"), each with a
head vertex index (`loop.vert.index`), an edge index (`loop.edge.index`),
next/prev half-edges within its face (`link_loop_next`/`link_loop_prev`),
and the list of radial half-edges sharing its edge (`loop.link_loops`,
which excludes the half-edge itself).  `faces` is the scan order of
`create_bezier`: the half-edges of each face in order. -/
structure Mesh (n : Nat) where
  vertOf : Fin n → Nat
  edgeOf : Fin n → Nat
  nextOf : Fin n → Fin n
  prevOf : Fin n → Fin n
  linkLoops : Fin n → List (Fin n)
  nEdges : Nat
  faces : List (List (Fin n))

/-- The boundary test `ignorable_loop`: a half-edge whose edge has no other
radial half-edge (`len(loop.link_loops) == 0`). -/
def ignorable {n : Nat} (m : Mesh n) (l : Fin n) : Bool :=
  (m.linkLoops l).isEmpty

/-- Ways a run of the Python code can abort: a failing `assert`, an
out-of-range list index, or (artefact of the fuel-based embedding of the
unbounded `while` loops) fuel exhaustion. -/
inductive PyErr where
  | assertionError : PyErr
  | indexError : PyErr
  | outOfFuel : PyErr
deriving DecidableEq

instance {ε α : Type} [DecidableEq ε] [DecidableEq α] : DecidableEq (Except ε α) := fun x y =>
  match x, y with
  | .error a, .error b =>
    if h : a = b then .isTrue (congrArg Except.error h)
    else .isFalse (fun hh => h (Except.error.inj hh))
  | .error _, .ok _ => .isFalse (fun hh => Except.noConfusion hh)
  | .ok _, .error _ => .isFalse (fun hh => Except.noConfusion hh)
  | .ok a, .ok b =>
    if h : a = b then .isTrue (congrArg Except.ok h)
    else .isFalse (fun hh => h (Except.ok.inj hh))

/-- The `loops_entered` / `loops_exited` dictionaries, instrumented as
counters: the boolean the code reads is `count ≠ 0`, and each `True`
assignment increments the counter. -/
structure TravState (n : Nat) where
  enteredCount : Fin n → Nat
  exitedCount : Fin n → Nat
deriving DecidableEq

namespace TravState

/-- Fresh state: both dictionaries default to `False` everywhere. -/
def init {n : Nat} : TravState n := ⟨fun _ => 0, fun _ => 0⟩

/-- The boolean `loops_entered[loop]`. -/
def entered {n : Nat} (s : TravState n) (l : Fin n) : Bool :=
  s.enteredCount l != 0

/-- The boolean `loops_exited[loop]`. -/
def exited {n : Nat} (s : TravState n) (l : Fin n) : Bool :=
  s.exitedCount l != 0

/-- The assignment `loops_entered[loop] = True`. -/
def markEntered {n : Nat} (s : TravState n) (l : Fin n) : TravState n :=
  { s with enteredCount := Function.update s.enteredCount l (s.enteredCount l + 1) }

/-- The assignment `loops_exited[loop] = True`. -/
def markExited {n : Nat} (s : TravState n) (l : Fin n) : TravState n :=
  { s with exitedCount := Function.update s.exitedCount l (s.exitedCount l + 1) }

end TravState

/-- One record per point the traversal emits: the half-edge the spline
crossed from (`prev_loop`), the half-edge it landed on (`loop` after
`loop = loop.link_loops[…]`), and the recomputed direction flag. -/
structure Emission (n : Nat) where
  prevLoop : Fin n
  loop : Fin n
  forward : Bool
deriving DecidableEq

/-- Result of one non-closing traversal step: the updated visited state and
the emission; the next current half-edge and direction are `em.loop` and
`em.forward`. -/
structure StepOut (n : Nat) where
  state : TravState n
  em : Emission n
deriving DecidableEq

/-- The forward boundary-skip walk
`while True: loop = loop.link_loop_next; if not ignorable_loop(loop): break`,
with fuel. -/
def walkNext {n : Nat} (m : Mesh n) : Nat → Fin n → Option (Fin n)
  | 0, _ => none
  | fuel + 1, l =>
    if ignorable m (m.nextOf l) then walkNext m fuel (m.nextOf l)
    else some (m.nextOf l)

/-- The backward boundary-skip walk
`while True: v = loop.vert.index; loop = loop.link_loop_prev;
if not ignorable_loop(loop): break`, returning the last `v` recorded
together with the final half-edge. -/
def walkPrev {n : Nat} (m : Mesh n) : Nat → Fin n → Option (Nat × Fin n)
  | 0, _ => none
  | fuel + 1, l =>
    if ignorable m (m.prevOf l) then walkPrev m fuel (m.prevOf l)
    else some (m.vertOf l, m.prevOf l)

/-- One iteration of the `if forward:` branch of `make_loop`'s main loop:
closure check on `loops_exited`, mark exited, forward walk, assert and mark
entered, record `v` and `prev_loop`, cross via `loop.link_loops[0]`,
recompute `forward`.  Returns `none` on cycle closure. -/
def fwdStep {n : Nat} (m : Mesh n) (s : TravState n) (l : Fin n) :
    Except PyErr (Option (StepOut n)) :=
  if s.exited l then .ok none
  else
    match walkNext m n l with
    | none => .error .outOfFuel
    | some l1 =>
      if (s.markExited l).entered l1 then .error .assertionError
      else
        match (m.linkLoops l1).head? with
        | none => .error .indexError
        | some l2 =>
          if l2 = l1 then .error .assertionError
          else
            .ok (some ⟨(s.markExited l).markEntered l1,
                       ⟨l1, l2, m.vertOf l2 == m.vertOf l1⟩⟩)

/-- One iteration of the `else:` (backward) branch of `make_loop`'s main
loop: closure check on `loops_entered`, mark entered, backward walk
(recording `v`), assert and mark exited, record `prev_loop`, cross via
`loop.link_loops[-1]`, recompute `forward`. -/
def backStep {n : Nat} (m : Mesh n) (s : TravState n) (l : Fin n) :
    Except PyErr (Option (StepOut n)) :=
  if s.entered l then .ok none
  else
    match walkPrev m n l with
    | none => .error .outOfFuel
    | some (v, r) =>
      if (s.markEntered l).exited r then .error .assertionError
      else
        match (m.linkLoops r).getLast? with
        | none => .error .indexError
        | some l2 =>
          if l2 = r then .error .assertionError
          else
            .ok (some ⟨(s.markEntered l).markExited r,
                       ⟨r, l2, m.vertOf l2 == v⟩⟩)

/-- The `while True` loop of `make_loop`, accumulating one emission per
point appended to `cos` (closure breaks before emitting). -/
def makeLoopAux {n : Nat} (m : Mesh n) :
    Nat → Fin n → Bool → TravState n → List (Emission n) →
    Except PyErr (TravState n × List (Emission n))
  | 0, _, _, _, _ => .error .outOfFuel
  | fuel + 1, l, fwd, s, acc =>
    match (if fwd then fwdStep m s l else backStep m s l) with
    | .error e => .error e
    | .ok none => .ok (s, acc)
    | .ok (some o) => makeLoopAux m fuel o.em.loop o.em.forward o.state (acc ++ [o.em])

/-- One spline as assembled by `make_loop`: the emission sequence and the
cyclic flag (`use_cyclic_u = True`). -/
structure Spline (n : Nat) where
  points : List (Emission n)
  cyclic : Bool
deriving DecidableEq

/-- A full `make_loop(loop, forward)` call: runs the main loop from an empty
point list and packages the spline, which the code marks cyclic. -/
def makeLoop {n : Nat} (m : Mesh n) (fuel : Nat) (l : Fin n) (fwd : Bool)
    (s : TravState n) : Except PyErr (TravState n × Spline n) :=
  match makeLoopAux m fuel l fwd s [] with
  | .error e => .error e
  | .ok (s2, pts) => .ok (s2, ⟨pts, true⟩)

/-- The guarded seeding in the outer scan: `if not loops_exited[loop]:
make_loop(loop, True)` for `fwd = true`, `if not loops_entered[loop]:
make_loop(loop, False)` for `fwd = false`. -/
def seedIfNeeded {n : Nat} (m : Mesh n) (fuel : Nat) (fwd : Bool) (l : Fin n)
    (s : TravState n) (acc : List (Spline n)) :
    Except PyErr (TravState n × List (Spline n)) :=
  if (if fwd then s.exited l else s.entered l) then .ok (s, acc)
  else
    match makeLoop m fuel l fwd s with
    | .error e => .error e
    | .ok (s2, sp) => .ok (s2, acc ++ [sp])

/-- The inner loop of the scan `for loop in face.loops`, skipping ignorable
half-edges and seeding a forward then a backward traversal as needed. -/
def scanLoops {n : Nat} (m : Mesh n) (fuel : Nat) :
    List (Fin n) → TravState n → List (Spline n) →
    Except PyErr (TravState n × List (Spline n))
  | [], s, acc => .ok (s, acc)
  | l :: rest, s, acc =>
    if ignorable m l then scanLoops m fuel rest s acc
    else
      match seedIfNeeded m fuel true l s acc with
      | .error e => .error e
      | .ok (s1, acc1) =>
        match seedIfNeeded m fuel false l s1 acc1 with
        | .error e => .error e
        | .ok (s2, acc2) => scanLoops m fuel rest s2 acc2

/-- The outer loop of the scan `for face in bm.faces`. -/
def scanFaces {n : Nat} (m : Mesh n) (fuel : Nat) :
    List (List (Fin n)) → TravState n → List (Spline n) →
    Except PyErr (TravState n × List (Spline n))
  | [], s, acc => .ok (s, acc)
  | f :: rest, s, acc =>
    match scanLoops m fuel f s acc with
    | .error e => .error e
    | .ok (s1, acc1) => scanFaces m fuel rest s1 acc1

/-- The topological content of `create_bezier`: fresh visited state, then
the full face/half-edge scan; returns the final state and the splines. -/
def createBezierTopo {n : Nat} (m : Mesh n) (fuel : Nat) :
    Except PyErr (TravState n × List (Spline n)) :=
  scanFaces m fuel m.faces TravState.init []

/-- The spline list of a run, final state dropped. -/
def topoSplines {n : Nat} (m : Mesh n) (fuel : Nat) :
    Except PyErr (List (Spline n)) :=
  match createBezierTopo m fuel with
  | .error e => .error e
  | .ok (_, spl) => .ok spl

/-- The twist classification values of the source. -/
inductive Twist where
  | TWIST_CW : Twist
  | STRAIGHT : Twist
  | TWIST_CCW : Twist
  | IGNORE : Twist
deriving DecidableEq

/-- The radial half-edge list of an edge (`edge.link_loops`): every
half-edge lying on that edge. -/
def edgeLinkLoops {n : Nat} (m : Mesh n) (e : Nat) : List (Fin n) :=
  (List.finRange n).filter (fun l => m.edgeOf l == e)

/-- `get_celtic_twists`: one classification per edge, `IGNORE` for edges
with no half-edge, `TWIST_CW` otherwise; no other check is performed. -/
def getCelticTwists {n : Nat} (m : Mesh n) : List Twist :=
  (List.range m.nEdges).map
    (fun e => if (edgeLinkLoops m e).isEmpty then Twist.IGNORE else Twist.TWIST_CW)

/-- Success test for an `Except` result. -/
def exceptOk {ε α : Type} : Except ε α → Bool
  | .ok _ => true
  | .error _ => false

/-- Well-formedness of the topological view, as guaranteed by a real bmesh:
every half-edge occurs in the face scan, radial adjacency is symmetric, and
next/prev are inverse within each face cycle. -/
def WF {n : Nat} (m : Mesh n) : Prop :=
  (∀ l : Fin n, l ∈ m.faces.flatten) ∧
  (∀ a b : Fin n, b ∈ m.linkLoops a → a ∈ m.linkLoops b) ∧
  (∀ l : Fin n, m.nextOf (m.prevOf l) = l) ∧
  (∀ l : Fin n, m.prevOf (m.nextOf l) = l)

instance {n : Nat} (m : Mesh n) : Decidable (WF m) := by
  unfold WF
  infer_instance

/-- Two quad faces sharing one edge (spec scenario 3): half-edges 0–3 form
face A over vertices 0,1,2,3 and half-edges 4–7 form face B over vertices
1,0,4,5; edge 0 (vertices 0–1) is shared, all other edges are boundary. -/
def M2 : Mesh 8 where
  vertOf := ![0, 1, 2, 3, 1, 0, 4, 5]
  edgeOf := ![0, 1, 2, 3, 0, 4, 5, 6]
  nextOf := ![1, 2, 3, 0, 5, 6, 7, 4]
  prevOf := ![3, 0, 1, 2, 7, 4, 5, 6]
  linkLoops := ![[4], [], [], [], [0], [], [], []]
  nEdges := 7
  faces := [[0, 1, 2, 3], [4, 5, 6, 7]]

/-- Three quad faces all sharing one edge (a "book" of three pages): edge 0
(vertices 0–1) carries the three half-edges 0, 4 and 8; its radial list has
three distinct half-edges, so this mesh is not 2-manifold. -/
def M3 : Mesh 12 where
  vertOf := ![0, 1, 2, 3, 1, 0, 4, 5, 0, 1, 6, 7]
  edgeOf := ![0, 1, 2, 3, 0, 4, 5, 6, 0, 7, 8, 9]
  nextOf := ![1, 2, 3, 0, 5, 6, 7, 4, 9, 10, 11, 8]
  prevOf := ![3, 0, 1, 2, 7, 4, 5, 6, 11, 8, 9, 10]
  linkLoops := ![[4, 8], [], [], [], [8, 0], [], [], [], [0, 4], [], [], []]
  nEdges := 10
  faces := [[0, 1, 2, 3], [4, 5, 6, 7], [8, 9, 10, 11]]

/-- A strip of three quads: faces A (half-edges 0–3), B (4–7) and C (8–11);
A and B share edge 0 (half-edges 0 and 4), B and C share edge 1 (half-edges
6 and 8).  Face B thus has two interior half-edges, so its backward
boundary-skip walk from half-edge 4 stops at half-edge 6 ≠ 4. -/
def Mstrip : Mesh 12 where
  vertOf := ![0, 1, 2, 3, 1, 0, 4, 5, 5, 4, 6, 7]
  edgeOf := ![0, 2, 3, 4, 0, 5, 1, 6, 1, 7, 8, 9]
  nextOf := ![1, 2, 3, 0, 5, 6, 7, 4, 9, 10, 11, 8]
  prevOf := ![3, 0, 1, 2, 7, 4, 5, 6, 11, 8, 9, 10]
  linkLoops := ![[4], [], [], [], [0], [], [8], [], [6], [], [], []]
  nEdges := 10
  faces := [[0, 1, 2, 3], [4, 5, 6, 7], [8, 9, 10, 11]]

/-- Real 3-vectors, idealising Blender's mathutils float vectors. -/
abbrev Vec3 := Fin 3 → ℝ

/-- The two handle modes offered by the operator. -/
inductive HandleType where
  | AUTO : HandleType
  | ALIGNED : HandleType
deriving DecidableEq

/-- The operator's parameters, consumed by `create_bezier` (plus
`thickness`, read only by the host-side tube step in `execute`). -/
structure Config where
  crossingAngle : ℝ
  crossingStrength : ℝ
  handleType : HandleType
  weaveUp : ℝ
  weaveDown : ℝ
  thickness : ℝ

/-- Geometric data read from the host mesh: vertex coordinates
(`vertices[i].co`), per-half-edge normals (`loop.calc_normal()`), and per
edge the pair of its vertex indices (`edge.vertices`). -/
structure GeoMesh (n : Nat) where
  vertCo : Nat → Vec3
  loopNormal : Fin n → Vec3
  edgeVerts : Nat → Nat × Nat

noncomputable section

namespace Vec3

/-- Euclidean inner product. -/
def dot (v w : Vec3) : ℝ := v 0 * w 0 + v 1 * w 1 + v 2 * w 2

/-- Euclidean length. -/
def norm (v : Vec3) : ℝ := Real.sqrt (dot v v)

/-- Cross product (`Vector.cross`). -/
def cross (v w : Vec3) : Vec3 :=
  ![v 1 * w 2 - v 2 * w 1, v 2 * w 0 - v 0 * w 2, v 0 * w 1 - v 1 * w 0]

open Classical in
/-- `Vector.normalize()` / `.normalized()`: scale to unit length; the zero
vector is left unchanged. -/
def normalize (v : Vec3) : Vec3 :=
  if norm v = 0 then v else (norm v)⁻¹ • v

end Vec3

/-- `s = sin(crossing_angle) * crossing_strength` (cached in
`create_bezier`). -/
def sParam (cfg : Config) : ℝ := Real.sin cfg.crossingAngle * cfg.crossingStrength

/-- `c = cos(crossing_angle) * crossing_strength` (cached in
`create_bezier`). -/
def cParam (cfg : Config) : ℝ := Real.cos cfg.crossingAngle * cfg.crossingStrength

/-- The cached midpoint of edge `e`: `(v1.co + v2.co) / 2`. -/
def midpointOf {n : Nat} (g : GeoMesh n) (e : Nat) : Vec3 :=
  ((1 : ℝ) / 2) • (g.vertCo (g.edgeVerts e).1 + g.vertCo (g.edgeVerts e).2)

/-- `normal = loop.calc_normal() + prev_loop.calc_normal()` followed by
`normal.normalize()`. -/
def avgNormal {n : Nat} (g : GeoMesh n) (e : Emission n) : Vec3 :=
  Vec3.normalize (g.loopNormal e.loop + g.loopNormal e.prevLoop)

/-- `offset = weave_up if forward else weave_down`. -/
def offsetOf {n : Nat} (cfg : Config) (e : Emission n) : ℝ :=
  if e.forward then cfg.weaveUp else cfg.weaveDown

/-- `midpoint = midpoint + offset * normal`: the stored control-point
position. -/
def position {n : Nat} (g : GeoMesh n) (m : Mesh n) (cfg : Config)
    (e : Emission n) : Vec3 :=
  midpointOf g (m.edgeOf e.loop) + offsetOf cfg e • avgNormal g e

/-- `tangent = loop.link_loop_next.vert.co - loop.vert.co` followed by
`tangent.normalize()`. -/
def tangentNormed {n : Nat} (g : GeoMesh n) (m : Mesh n) (e : Emission n) : Vec3 :=
  Vec3.normalize (g.vertCo (m.vertOf (m.nextOf e.loop)) - g.vertCo (m.vertOf e.loop))

/-- `binormal = normal.cross(tangent).normalized()` — computed BEFORE the
backward negation of the tangent. -/
def binormalUsed {n : Nat} (g : GeoMesh n) (m : Mesh n) (e : Emission n) : Vec3 :=
  Vec3.normalize (Vec3.cross (avgNormal g e) (tangentNormed g m e))

/-- The tangent actually used for the handles
(`if not forward: tangent *= -1`). -/
def tangentUsed {n : Nat} (g : GeoMesh n) (m : Mesh n) (e : Emission n) : Vec3 :=
  if e.forward then tangentNormed g m e else -tangentNormed g m e

/-- `handle_left = midpoint - s_binormal - c_tangent`. -/
def handleLeftPos {n : Nat} (g : GeoMesh n) (m : Mesh n) (cfg : Config)
    (e : Emission n) : Vec3 :=
  position g m cfg e - sParam cfg • binormalUsed g m e - cParam cfg • tangentUsed g m e

/-- `handle_right = midpoint + s_binormal + c_tangent`. -/
def handleRightPos {n : Nat} (g : GeoMesh n) (m : Mesh n) (cfg : Config)
    (e : Emission n) : Vec3 :=
  position g m cfg e + sParam cfg • binormalUsed g m e + cParam cfg • tangentUsed g m e

/-- One stored bezier point: position and (when `handle_type != "AUTO"`)
the two handles. -/
structure ControlPoint where
  co : Vec3
  handleLeftCo : Option Vec3
  handleRightCo : Option Vec3

/-- The control point assembled for one emission; handles only in ALIGNED
mode, mirroring `if handle_type != "AUTO"`. -/
def emissionPoint {n : Nat} (g : GeoMesh n) (m : Mesh n) (cfg : Config)
    (e : Emission n) : ControlPoint :=
  if cfg.handleType = HandleType.AUTO then
    ⟨position g m cfg e, none, none⟩
  else
    ⟨position g m cfg e, some (handleLeftPos g m cfg e),
      some (handleRightPos g m cfg e)⟩

/-- A spline with its geometry materialised. -/
structure GeoSpline where
  points : List ControlPoint
  cyclic : Bool

/-- `create_bezier`: runs the scan and materialises each spline's points
and handles; the `twists` argument is received but never read by the
body. -/
def createBezier {n : Nat} (g : GeoMesh n) (m : Mesh n) (twists : List Twist)
    (cfg : Config) (fuel : Nat) : Except PyErr (List GeoSpline) :=
  match createBezierTopo m fuel with
  | .error e => .error e
  | .ok (_, spl) =>
    .ok (spl.map (fun sp => ⟨sp.points.map (emissionPoint g m cfg), sp.cyclic⟩))

/-- `CelticKnotOperator.execute`: computes the twist classification, then
calls `create_bezier` with the operator's parameters; no parameter
validation of any kind precedes the traversal. -/
def execute {n : Nat} (g : GeoMesh n) (m : Mesh n) (cfg : Config)
    (fuel : Nat) : Except PyErr (List GeoSpline) :=
  createBezier g m (getCelticTwists m) cfg fuel

/-- Geometry on `M2`: all half-edge normals point up, the shared edge runs
from the origin to (1,0,0). -/
def gM2 : GeoMesh 8 where
  vertCo := fun i => if i = 0 then ![0, 0, 0] else if i = 1 then ![1, 0, 0] else ![0, 1, 0]
  loopNormal := fun _ => ![0, 0, 1]
  edgeVerts := fun e => if e = 0 then (0, 1) else (0, 0)

/-- Degenerate geometry on `M2`: the normals of the two half-edges at the
shared edge cancel (the faces fold back onto each other). -/
def gM2deg : GeoMesh 8 where
  vertCo := fun i => if i = 0 then ![0, 0, 0] else if i = 1 then ![1, 0, 0] else ![0, 1, 0]
  loopNormal := fun l => if l = (4 : Fin 8) then ![0, 0, -1] else ![0, 0, 1]
  edgeVerts := fun e => if e = 0 then (0, 1) else (0, 0)

/-- An ALIGNED configuration with unit weave offsets. -/
def cfgAligned : Config :=
  ⟨Real.pi / 4, 5 / 100, HandleType.ALIGNED, 1, 1, 0⟩

/-- A configuration violating every documented parameter range:
`crossing_angle = 3 ∉ [0, π/2]`, negative strength, negative thickness. -/
def cfgBad : Config := ⟨3, -1, HandleType.AUTO, 1, 1, -1⟩

end

/-- The first emission of the run on `M2`: backward crossing from half-edge
0 to half-edge 4. -/
def em1 : Emission 8 := ⟨0, 4, false⟩

/-- The spline produced on `M2`. -/
def spM2 : Spline 8 := ⟨[⟨0, 4, false⟩, ⟨4, 0, true⟩], true⟩

section StepLemmas

variable {n : Nat} {m : Mesh n} {s : TravState n} {l : Fin n} {o : StepOut n}

/-- Counter update of `markEntered`, pointwise. -/
theorem TravState.markEntered_enteredCount (s : TravState n) (l l' : Fin n) :
    (s.markEntered l).enteredCount l' =
      if l' = l then s.enteredCount l' + 1 else s.enteredCount l' := by
  simp only [TravState.markEntered, Function.update_apply]
  split <;> simp_all

/-- `markEntered` leaves the exited counter unchanged. -/
theorem TravState.markEntered_exitedCount (s : TravState n) (l : Fin n) :
    (s.markEntered l).exitedCount = s.exitedCount := rfl

/-- Counter update of `markExited`, pointwise. -/
theorem TravState.markExited_exitedCount (s : TravState n) (l l' : Fin n) :
    (s.markExited l).exitedCount l' =
      if l' = l then s.exitedCount l' + 1 else s.exitedCount l' := by
  simp only [TravState.markExited, Function.update_apply]
  split <;> simp_all

/-- `markExited` leaves the entered counter unchanged. -/
theorem TravState.markExited_enteredCount (s : TravState n) (l : Fin n) :
    (s.markExited l).enteredCount = s.enteredCount := rfl

/-- The boolean `loops_entered[l]` is false exactly when the counter is 0. -/
theorem TravState.entered_false_iff (s : TravState n) (l : Fin n) :
    s.entered l = false ↔ s.enteredCount l = 0 := by
  simp [TravState.entered]

/-- The boolean `loops_exited[l]` is false exactly when the counter is 0. -/
theorem TravState.exited_false_iff (s : TravState n) (l : Fin n) :
    s.exited l = false ↔ s.exitedCount l = 0 := by
  simp [TravState.exited]

/-- Pointwise order on visited states: counters only grow. -/
def StateLE (s t : TravState n) : Prop :=
  ∀ l : Fin n, s.enteredCount l ≤ t.enteredCount l ∧ s.exitedCount l ≤ t.exitedCount l

theorem StateLE.rfl (s : TravState n) : StateLE s s := fun _ => ⟨le_refl _, le_refl _⟩

theorem StateLE.trans {s t u : TravState n} (h1 : StateLE s t) (h2 : StateLE t u) :
    StateLE s u := fun l => ⟨le_trans (h1 l).1 (h2 l).1, le_trans (h1 l).2 (h2 l).2⟩

/-- The forward boundary-skip walk only stops on non-ignorable half-edges. -/
theorem walkNext_not_ignorable {r : Fin n} :
    ∀ {fuel : Nat} {l : Fin n}, walkNext m fuel l = some r → ignorable m r = false := by
  intro fuel
  induction fuel with
  | zero => intro l h; simp [walkNext] at h
  | succ fuel ih =>
    intro l h
    unfold walkNext at h
    by_cases hig : ignorable m (m.nextOf l) = true
    · rw [if_pos hig] at h; exact ih h
    · rw [if_neg hig] at h
      cases h
      simpa using hig

/-- The backward boundary-skip walk stops on a non-ignorable half-edge, and
the returned vertex is the head vertex of a half-edge whose `prev` is the
stopping half-edge. -/
theorem walkPrev_spec {v : Nat} {r : Fin n} :
    ∀ {fuel : Nat} {l : Fin n}, walkPrev m fuel l = some (v, r) →
      ignorable m r = false ∧ ∃ l0 : Fin n, m.prevOf l0 = r ∧ v = m.vertOf l0 := by
  intro fuel
  induction fuel with
  | zero => intro l h; simp [walkPrev] at h
  | succ fuel ih =>
    intro l h
    unfold walkPrev at h
    by_cases hig : ignorable m (m.prevOf l) = true
    · rw [if_pos hig] at h; exact ih h
    · rw [if_neg hig] at h
      cases h
      exact ⟨by simpa using hig, l, Eq.refl _, Eq.refl _⟩

/-- A successful, non-closing forward step, decomposed: the closure check
passed, the walk found `l1 = em.prevLoop`, the entered-assert passed,
crossing used the head of the radial list, and the next state/emission have
the recorded shape. -/
theorem fwdStep_some (h : fwdStep m s l = .ok (some o)) :
    s.exited l = false ∧
    ∃ l1 l2 : Fin n, walkNext m n l = some l1 ∧
      s.enteredCount l1 = 0 ∧
      (m.linkLoops l1).head? = some l2 ∧ l2 ≠ l1 ∧
      o = ⟨(s.markExited l).markEntered l1, ⟨l1, l2, m.vertOf l2 == m.vertOf l1⟩⟩ := by
  unfold fwdStep at h
  split at h
  · simp at h
  next hex =>
    refine ⟨by simpa using hex, ?_⟩
    split at h
    · simp at h
    next l1 hwalk =>
      split at h
      · simp at h
      next hent =>
        split at h
        · simp at h
        next l2 hhead =>
          split at h
          · simp at h
          next hne =>
            refine ⟨l1, l2, hwalk, ?_, hhead, hne, ?_⟩
            · have := (TravState.entered_false_iff (s.markExited l) l1).mp (by simpa using hent)
              simpa [TravState.markExited_enteredCount] using this
            · cases h; rfl

/-- A successful, non-closing backward step, decomposed. -/
theorem backStep_some (h : backStep m s l = .ok (some o)) :
    s.entered l = false ∧
    ∃ (v : Nat) (r l2 : Fin n), walkPrev m n l = some (v, r) ∧
      s.exitedCount r = 0 ∧
      (m.linkLoops r).getLast? = some l2 ∧ l2 ≠ r ∧
      o = ⟨(s.markEntered l).markExited r, ⟨r, l2, m.vertOf l2 == v⟩⟩ := by
  unfold backStep at h
  split at h
  · simp at h
  next hent =>
    refine ⟨by simpa using hent, ?_⟩
    split at h
    · simp at h
    next v r hwalk =>
      split at h
      · simp at h
      next hex =>
        split at h
        · simp at h
        next l2 hlast =>
          split at h
          · simp at h
          next hne =>
            refine ⟨v, r, l2, hwalk, ?_, hlast, hne, ?_⟩
            · have := (TravState.exited_false_iff (s.markEntered l) r).mp (by simpa using hex)
              simpa [TravState.markEntered_exitedCount] using this
            · cases h; rfl

/-- The forward step closes the cycle exactly when `loops_exited[l]` is
already true. -/
theorem fwdStep_none_iff :
    fwdStep m s l = .ok none ↔ s.exited l = true := by
  constructor
  · intro h
    unfold fwdStep at h
    split at h
    · assumption
    · split at h
      · simp at h
      · split at h
        · simp at h
        · split at h
          · simp at h
          · split at h <;> simp at h
  · intro h
    unfold fwdStep
    rw [if_pos h]

/-- The backward step closes the cycle exactly when `loops_entered[l]` is
already true. -/
theorem backStep_none_iff :
    backStep m s l = .ok none ↔ s.entered l = true := by
  constructor
  · intro h
    unfold backStep at h
    split at h
    · assumption
    · split at h
      · simp at h
      · split at h
        · simp at h
        · split at h
          · simp at h
          · split at h <;> simp at h
  · intro h
    unfold backStep
    rw [if_pos h]

theorem head?_mem {α : Type} {xs : List α} {a : α} (h : xs.head? = some a) : a ∈ xs := by
  cases xs with
  | nil => simp at h
  | cons b t =>
    simp only [List.head?] at h
    cases h
    exact List.mem_cons_self _ _

theorem getLast?_mem {α : Type} {xs : List α} {a : α} (h : xs.getLast? = some a) : a ∈ xs := by
  have hmem : a ∈ xs.getLast? := by simp [h]
  obtain ⟨hne, hEq⟩ := List.mem_getLast?_eq_getLast hmem
  rw [hEq]
  exact List.getLast_mem hne

/-- Everything the later invariant arguments need about a successful
non-closing forward step, in terms of the counters. -/
theorem fwdStep_counts (h : fwdStep m s l = .ok (some o)) :
    StateLE s o.state ∧
    s.exitedCount l = 0 ∧
    o.state.exitedCount l = s.exitedCount l + 1 ∧
    s.enteredCount o.em.prevLoop = 0 ∧
    o.state.enteredCount o.em.prevLoop = s.enteredCount o.em.prevLoop + 1 ∧
    (∀ l' : Fin n, l' ≠ l → o.state.exitedCount l' = s.exitedCount l') ∧
    (∀ l' : Fin n, l' ≠ o.em.prevLoop → o.state.enteredCount l' = s.enteredCount l') ∧
    ignorable m o.em.prevLoop = false ∧
    o.em.loop ∈ m.linkLoops o.em.prevLoop := by
  obtain ⟨hex, l1, l2, hwalk, hent, hhead, hne, ho⟩ := fwdStep_some h
  have hig : ignorable m l1 = false := walkNext_not_ignorable hwalk
  subst ho
  have hex0 : s.exitedCount l = 0 := (TravState.exited_false_iff s l).mp hex
  refine ⟨?_, hex0, ?_, hent, ?_, ?_, ?_, hig, head?_mem hhead⟩
  · intro l'
    constructor
    · rw [TravState.markEntered_enteredCount, TravState.markExited_enteredCount]
      split <;> omega
    · rw [TravState.markEntered_exitedCount, TravState.markExited_exitedCount]
      split <;> omega
  · rw [TravState.markEntered_exitedCount, TravState.markExited_exitedCount, if_pos rfl]
  · rw [TravState.markEntered_enteredCount, TravState.markExited_enteredCount, if_pos rfl]
  · intro l' hl'
    rw [TravState.markEntered_exitedCount, TravState.markExited_exitedCount, if_neg hl']
  · intro l' hl'
    rw [TravState.markEntered_enteredCount, TravState.markExited_enteredCount, if_neg hl']

/-- Everything the later invariant arguments need about a successful
non-closing backward step, in terms of the counters. -/
theorem backStep_counts (h : backStep m s l = .ok (some o)) :
    StateLE s o.state ∧
    s.enteredCount l = 0 ∧
    o.state.enteredCount l = s.enteredCount l + 1 ∧
    s.exitedCount o.em.prevLoop = 0 ∧
    o.state.exitedCount o.em.prevLoop = s.exitedCount o.em.prevLoop + 1 ∧
    (∀ l' : Fin n, l' ≠ l → o.state.enteredCount l' = s.enteredCount l') ∧
    (∀ l' : Fin n, l' ≠ o.em.prevLoop → o.state.exitedCount l' = s.exitedCount l') ∧
    ignorable m o.em.prevLoop = false ∧
    o.em.loop ∈ m.linkLoops o.em.prevLoop := by
  obtain ⟨hent, v, r, l2, hwalk, hex, hlast, hne, ho⟩ := backStep_some h
  have hig : ignorable m r = false := (walkPrev_spec hwalk).1
  subst ho
  have hent0 : s.enteredCount l = 0 := (TravState.entered_false_iff s l).mp hent
  refine ⟨?_, hent0, ?_, hex, ?_, ?_, ?_, hig, getLast?_mem hlast⟩
  · intro l'
    constructor
    · rw [TravState.markExited_enteredCount, TravState.markEntered_enteredCount]
      split <;> omega
    · rw [TravState.markExited_exitedCount, TravState.markEntered_exitedCount]
      split <;> omega
  · rw [TravState.markExited_enteredCount, TravState.markEntered_enteredCount, if_pos rfl]
  · rw [TravState.markExited_exitedCount, TravState.markEntered_exitedCount, if_pos rfl]
  · intro l' hl'
    rw [TravState.markExited_enteredCount, TravState.markEntered_enteredCount, if_neg hl']
  · intro l' hl'
    rw [TravState.markExited_exitedCount, TravState.markEntered_exitedCount, if_neg hl']

/-- Run invariant: every counter is at most 1 (no flag is ever set twice)
and ignorable (boundary) half-edges are never marked. -/
def Inv (m : Mesh n) (s : TravState n) : Prop :=
  (∀ l' : Fin n, s.enteredCount l' ≤ 1 ∧ s.exitedCount l' ≤ 1) ∧
  (∀ l' : Fin n, ignorable m l' = true → s.enteredCount l' = 0 ∧ s.exitedCount l' = 0)

theorem Inv.init : Inv m TravState.init :=
  ⟨fun _ => ⟨Nat.zero_le _, Nat.zero_le _⟩, fun _ _ => ⟨rfl, rfl⟩⟩

/-- A state obtained by bumping the entered counter at a non-ignorable `a`
(from 0) and the exited counter at a non-ignorable `b` (from 0) keeps the
invariant. -/
theorem Inv.of_counts (hinv : Inv m s) {t : TravState n} {a b : Fin n}
    (ha : ignorable m a = false) (hb : ignorable m b = false)
    (hea : s.enteredCount a = 0) (hxb : s.exitedCount b = 0)
    (htea : t.enteredCount a = s.enteredCount a + 1)
    (htxb : t.exitedCount b = s.exitedCount b + 1)
    (hen : ∀ l' : Fin n, l' ≠ a → t.enteredCount l' = s.enteredCount l')
    (hxn : ∀ l' : Fin n, l' ≠ b → t.exitedCount l' = s.exitedCount l') :
    Inv m t := by
  constructor
  · intro l'
    constructor
    · by_cases hla : l' = a
      · subst hla; omega
      · rw [hen l' hla]; exact (hinv.1 l').1
    · by_cases hlb : l' = b
      · subst hlb; omega
      · rw [hxn l' hlb]; exact (hinv.1 l').2
  · intro l' hig
    have hla : l' ≠ a := fun hEq => by rw [hEq] at hig; rw [hig] at ha; cases ha
    have hlb : l' ≠ b := fun hEq => by rw [hEq] at hig; rw [hig] at hb; cases hb
    rw [hen l' hla, hxn l' hlb]
    exact hinv.2 l' hig

/-- Non-ignorability propagates across the radial crossing: the landing
half-edge shares its edge with the crossed one, so (by radial symmetry) its
radial list is nonempty. -/
theorem crossing_not_ignorable
    (hsym : ∀ a b : Fin n, b ∈ m.linkLoops a → a ∈ m.linkLoops b)
    {a b : Fin n} (hmem : b ∈ m.linkLoops a) : ignorable m b = false := by
  have : m.linkLoops b ≠ [] := List.ne_nil_of_mem (hsym a b hmem)
  simpa [ignorable, List.isEmpty_iff] using this

/-- Uniform facts about a successful non-closing step in either direction:
the invariant is preserved, counters only grow, and both the landing and
the crossed half-edge are interior. -/
theorem stepIf_facts {fwd : Bool}
    (hsym : ∀ a b : Fin n, b ∈ m.linkLoops a → a ∈ m.linkLoops b)
    (hl : ignorable m l = false) (hinv : Inv m s)
    (h : (if fwd then fwdStep m s l else backStep m s l) = .ok (some o)) :
    Inv m o.state ∧ StateLE s o.state ∧
    ignorable m o.em.loop = false ∧ ignorable m o.em.prevLoop = false := by
  cases fwd with
  | true =>
    rw [if_pos rfl] at h
    obtain ⟨hle, hx0, hx1, he0, he1, hxn, hen, hprev, hmem⟩ := fwdStep_counts h
    exact ⟨Inv.of_counts hinv hprev hl he0 hx0 he1 hx1 hen hxn,
      hle, crossing_not_ignorable hsym hmem, hprev⟩
  | false =>
    rw [if_neg (by simp)] at h
    obtain ⟨hle, he0, he1, hx0, hx1, hen, hxn, hprev, hmem⟩ := backStep_counts h
    exact ⟨Inv.of_counts hinv hl hprev he0 hx0 he1 hx1 hen hxn,
      hle, crossing_not_ignorable hsym hmem, hprev⟩

/-- Invariant, monotonicity and emission-interiority through the main
`while True` loop of `make_loop`. -/
theorem makeLoopAux_inv
    (hsym : ∀ a b : Fin n, b ∈ m.linkLoops a → a ∈ m.linkLoops b) :
    ∀ (fuel : Nat) (l : Fin n) (fwd : Bool) (s : TravState n)
      (acc : List (Emission n)) (s2 : TravState n) (pts : List (Emission n)),
      makeLoopAux m fuel l fwd s acc = .ok (s2, pts) →
      ignorable m l = false → Inv m s →
      Inv m s2 ∧ StateLE s s2 ∧
      (∀ e ∈ pts, e ∈ acc ∨
        (ignorable m e.loop = false ∧ ignorable m e.prevLoop = false)) := by
  intro fuel
  induction fuel with
  | zero =>
    intro l fwd s acc s2 pts h
    simp [makeLoopAux] at h
  | succ fuel ih =>
    intro l fwd s acc s2 pts h hl hinv
    unfold makeLoopAux at h
    split at h
    · simp at h
    next heq =>
      cases h
      exact ⟨hinv, StateLE.rfl s, fun e he => Or.inl he⟩
    next o heq =>
      obtain ⟨hinv2, hle2, hloop, hprev⟩ := stepIf_facts hsym hl hinv heq
      obtain ⟨hinv3, hle3, hpts⟩ := ih o.em.loop o.em.forward o.state (acc ++ [o.em]) s2 pts h hloop hinv2
      refine ⟨hinv3, StateLE.trans hle2 hle3, fun e he => ?_⟩
      rcases hpts e he with hmem | hgood
      · rcases List.mem_append.mp hmem with hmem2 | hmem2
        · exact Or.inl hmem2
        · have : e = o.em := by simpa using hmem2
          subst this
          exact Or.inr ⟨hloop, hprev⟩
      · exact Or.inr hgood

/-- A forward-seeded `make_loop` whose seed was unexited marks the seed
exited (first iteration), and the mark persists by monotonicity. -/
theorem makeLoopAux_seed_fwd
    (hsym : ∀ a b : Fin n, b ∈ m.linkLoops a → a ∈ m.linkLoops b)
    (hl : ignorable m l = false) (hinv : Inv m s)
    {fuel : Nat} {acc : List (Emission n)} {s2 : TravState n} {pts : List (Emission n)}
    (h : makeLoopAux m fuel l true s acc = .ok (s2, pts))
    (hx : s.exited l = false) :
    1 ≤ s2.exitedCount l := by
  cases fuel with
  | zero => simp [makeLoopAux] at h
  | succ fuel =>
    unfold makeLoopAux at h
    split at h
    · simp at h
    next heq =>
      rw [if_pos rfl] at heq
      rw [fwdStep_none_iff.mp heq] at hx
      cases hx
    next o heq =>
      have heqf : fwdStep m s l = .ok (some o) := by rw [if_pos rfl] at heq; exact heq
      obtain ⟨hinv2, hle2, hloop, _⟩ := stepIf_facts hsym hl hinv heq
      obtain ⟨_, hx1, _⟩ := (fwdStep_counts heqf).2
      obtain ⟨_, hle3, _⟩ :=
        makeLoopAux_inv hsym fuel o.em.loop o.em.forward o.state (acc ++ [o.em]) s2 pts h hloop hinv2
      have := (hle3 l).2
      omega

/-- A backward-seeded `make_loop` whose seed was unentered marks the seed
entered (first iteration), and the mark persists by monotonicity. -/
theorem makeLoopAux_seed_back
    (hsym : ∀ a b : Fin n, b ∈ m.linkLoops a → a ∈ m.linkLoops b)
    (hl : ignorable m l = false) (hinv : Inv m s)
    {fuel : Nat} {acc : List (Emission n)} {s2 : TravState n} {pts : List (Emission n)}
    (h : makeLoopAux m fuel l false s acc = .ok (s2, pts))
    (hx : s.entered l = false) :
    1 ≤ s2.enteredCount l := by
  cases fuel with
  | zero => simp [makeLoopAux] at h
  | succ fuel =>
    unfold makeLoopAux at h
    split at h
    · simp at h
    next heq =>
      rw [if_neg (by simp)] at heq
      rw [backStep_none_iff.mp heq] at hx
      cases hx
    next o heq =>
      have heqb : backStep m s l = .ok (some o) := by rw [if_neg (by simp)] at heq; exact heq
      obtain ⟨hinv2, hle2, hloop, _⟩ := stepIf_facts hsym hl hinv heq
      obtain ⟨_, he1, _⟩ := (backStep_counts heqb).2
      obtain ⟨_, hle3, _⟩ :=
        makeLoopAux_inv hsym fuel o.em.loop o.em.forward o.state (acc ++ [o.em]) s2 pts h hloop hinv2
      have := (hle3 l).1
      omega

/-- Unfolding of a successful `makeLoop` call. -/
theorem makeLoop_ok {fuel : Nat} {fwd : Bool} {s2 : TravState n} {sp : Spline n}
    (h : makeLoop m fuel l fwd s = .ok (s2, sp)) :
    ∃ pts, makeLoopAux m fuel l fwd s [] = .ok (s2, pts) ∧ sp = ⟨pts, true⟩ := by
  unfold makeLoop at h
  split at h
  · simp at h
  next s3 pts heq =>
    cases h
    exact ⟨pts, heq, rfl⟩

/-- Consequences of the guarded forward seeding `if not loops_exited[l]:
make_loop(l, True)`: afterwards the seed is exited at least once. -/
theorem seedIfNeeded_fwd_spec
    (hsym : ∀ a b : Fin n, b ∈ m.linkLoops a → a ∈ m.linkLoops b)
    (hl : ignorable m l = false) (hinv : Inv m s)
    {fuel : Nat} {acc acc2 : List (Spline n)} {s2 : TravState n}
    (h : seedIfNeeded m fuel true l s acc = .ok (s2, acc2)) :
    Inv m s2 ∧ StateLE s s2 ∧ 1 ≤ s2.exitedCount l ∧
    (∀ sp ∈ acc2, sp ∈ acc ∨
      ∀ e ∈ sp.points, ignorable m e.loop = false ∧ ignorable m e.prevLoop = false) := by
  unfold seedIfNeeded at h
  rw [show (if true then s.exited l else s.entered l) = s.exited l from rfl] at h
  split at h
  next hx =>
    cases h
    have hx0 : ¬ s.exitedCount l = 0 := by simpa [TravState.exited] using hx
    exact ⟨hinv, StateLE.rfl s, by omega, fun sp hsp => Or.inl hsp⟩
  next hx =>
    have hxf : s.exited l = false := by simpa using hx
    split at h
    · simp at h
    next s3 sp heq =>
      cases h
      obtain ⟨pts, haux, hsp⟩ := makeLoop_ok heq
      obtain ⟨hinv2, hle2, hgood⟩ :=
        makeLoopAux_inv hsym fuel l true s [] s2 pts haux hl hinv
      refine ⟨hinv2, hle2, makeLoopAux_seed_fwd hsym hl hinv haux hxf, fun sp2 hsp2 => ?_⟩
      rcases List.mem_append.mp hsp2 with hmem | hmem
      · exact Or.inl hmem
      · have : sp2 = sp := by simpa using hmem
        subst this
        rw [hsp]
        refine Or.inr (fun e he => ?_)
        rcases hgood e he with hin | hin
        · cases hin
        · exact hin

/-- Consequences of the guarded backward seeding `if not loops_entered[l]:
make_loop(l, False)`: afterwards the seed is entered at least once. -/
theorem seedIfNeeded_back_spec
    (hsym : ∀ a b : Fin n, b ∈ m.linkLoops a → a ∈ m.linkLoops b)
    (hl : ignorable m l = false) (hinv : Inv m s)
    {fuel : Nat} {acc acc2 : List (Spline n)} {s2 : TravState n}
    (h : seedIfNeeded m fuel false l s acc = .ok (s2, acc2)) :
    Inv m s2 ∧ StateLE s s2 ∧ 1 ≤ s2.enteredCount l ∧
    (∀ sp ∈ acc2, sp ∈ acc ∨
      ∀ e ∈ sp.points, ignorable m e.loop = false ∧ ignorable m e.prevLoop = false) := by
  unfold seedIfNeeded at h
  rw [show (if false then s.exited l else s.entered l) = s.entered l from rfl] at h
  split at h
  next hx =>
    cases h
    have hx0 : ¬ s.enteredCount l = 0 := by simpa [TravState.entered] using hx
    exact ⟨hinv, StateLE.rfl s, by omega, fun sp hsp => Or.inl hsp⟩
  next hx =>
    have hxf : s.entered l = false := by simpa using hx
    split at h
    · simp at h
    next s3 sp heq =>
      cases h
      obtain ⟨pts, haux, hsp⟩ := makeLoop_ok heq
      obtain ⟨hinv2, hle2, hgood⟩ :=
        makeLoopAux_inv hsym fuel l false s [] s2 pts haux hl hinv
      refine ⟨hinv2, hle2, makeLoopAux_seed_back hsym hl hinv haux hxf, fun sp2 hsp2 => ?_⟩
      rcases List.mem_append.mp hsp2 with hmem | hmem
      · exact Or.inl hmem
      · have : sp2 = sp := by simpa using hmem
        subst this
        rw [hsp]
        refine Or.inr (fun e he => ?_)
        rcases hgood e he with hin | hin
        · cases hin
        · exact hin

/-- Invariant and coverage through the inner scan over one face's
half-edges. -/
theorem scanLoops_spec
    (hsym : ∀ a b : Fin n, b ∈ m.linkLoops a → a ∈ m.linkLoops b) {fuel : Nat} :
    ∀ (L : List (Fin n)) (s : TravState n) (acc : List (Spline n))
      (s2 : TravState n) (acc2 : List (Spline n)),
      scanLoops m fuel L s acc = .ok (s2, acc2) → Inv m s →
      Inv m s2 ∧ StateLE s s2 ∧
      (∀ l' ∈ L, ignorable m l' = false →
        1 ≤ s2.enteredCount l' ∧ 1 ≤ s2.exitedCount l') ∧
      (∀ sp ∈ acc2, sp ∈ acc ∨
        ∀ e ∈ sp.points, ignorable m e.loop = false ∧ ignorable m e.prevLoop = false) := by
  intro L
  induction L with
  | nil =>
    intro s acc s2 acc2 h hinv
    unfold scanLoops at h
    cases h
    exact ⟨hinv, StateLE.rfl s, by simp, fun sp hsp => Or.inl hsp⟩
  | cons l0 rest ih =>
    intro s acc s2 acc2 h hinv
    unfold scanLoops at h
    split at h
    next hig =>
      obtain ⟨hinv2, hle2, hcov, hspl⟩ := ih s acc s2 acc2 h hinv
      refine ⟨hinv2, hle2, fun l' hl' hil' => ?_, hspl⟩
      rcases List.mem_cons.mp hl' with hl' | hl'
      · subst hl'; rw [hig] at hil'; cases hil'
      · exact hcov l' hl' hil'
    next hig =>
      have hl0 : ignorable m l0 = false := by simpa using hig
      split at h
      · simp at h
      next s1 acc1 heq1 =>
        split at h
        · simp at h
        next s4 acc4 heq2 =>
          obtain ⟨hinv1, hle1, hx1, hspl1⟩ := seedIfNeeded_fwd_spec hsym hl0 hinv heq1
          obtain ⟨hinv4, hle4, he4, hspl4⟩ := seedIfNeeded_back_spec hsym hl0 hinv1 heq2
          obtain ⟨hinv2, hle2, hcov, hspl⟩ := ih s4 acc4 s2 acc2 h hinv4
          refine ⟨hinv2, StateLE.trans hle1 (StateLE.trans hle4 hle2),
            fun l' hl' hil' => ?_, fun sp hsp => ?_⟩
          · rcases List.mem_cons.mp hl' with hl' | hl'
            · subst hl'
              have h1 := (hle4 l').2
              have h2 := (hle2 l').2
              have h3 := (hle2 l').1
              omega
            · exact hcov l' hl' hil'
          · rcases hspl sp hsp with hmem | hgood
            · rcases hspl4 sp hmem with hmem2 | hgood
              · exact hspl1 sp hmem2
              · exact Or.inr hgood
            · exact Or.inr hgood

/-- Invariant and coverage through the outer scan over all faces. -/
theorem scanFaces_spec
    (hsym : ∀ a b : Fin n, b ∈ m.linkLoops a → a ∈ m.linkLoops b) {fuel : Nat} :
    ∀ (F : List (List (Fin n))) (s : TravState n) (acc : List (Spline n))
      (s2 : TravState n) (acc2 : List (Spline n)),
      scanFaces m fuel F s acc = .ok (s2, acc2) → Inv m s →
      Inv m s2 ∧ StateLE s s2 ∧
      (∀ l' ∈ F.flatten, ignorable m l' = false →
        1 ≤ s2.enteredCount l' ∧ 1 ≤ s2.exitedCount l') ∧
      (∀ sp ∈ acc2, sp ∈ acc ∨
        ∀ e ∈ sp.points, ignorable m e.loop = false ∧ ignorable m e.prevLoop = false) := by
  intro F
  induction F with
  | nil =>
    intro s acc s2 acc2 h hinv
    unfold scanFaces at h
    cases h
    exact ⟨hinv, StateLE.rfl s, by simp, fun sp hsp => Or.inl hsp⟩
  | cons f rest ih =>
    intro s acc s2 acc2 h hinv
    unfold scanFaces at h
    split at h
    · simp at h
    next s1 acc1 heq1 =>
      obtain ⟨hinv1, hle1, hcov1, hspl1⟩ := scanLoops_spec hsym f s acc s1 acc1 heq1 hinv
      obtain ⟨hinv2, hle2, hcov2, hspl2⟩ := ih s1 acc1 s2 acc2 h hinv1
      refine ⟨hinv2, StateLE.trans hle1 hle2, fun l' hl' hil' => ?_, fun sp hsp => ?_⟩
      · rw [List.flatten_cons] at hl'
        rcases List.mem_append.mp hl' with hl' | hl'
        · obtain ⟨ha, hb⟩ := hcov1 l' hl' hil'
          have h1 := (hle2 l').1
          have h2 := (hle2 l').2
          omega
        · exact hcov2 l' hl' hil'
      · rcases hspl2 sp hsp with hmem | hgood
        · exact hspl1 sp hmem
        · exact Or.inr hgood

end StepLemmas

/-- The spline list produced on `M2`: one cyclic spline of two points, one
per direction across the single interior edge. -/
def splM2 : List (Spline 8) := [spM2]

/-- C1: on a well-formed mesh, when the full face/half-edge scan completes
without error, every interior (non-ignorable) half-edge has had `exited`
set to true exactly once and `entered` set to true exactly once across all
forward- and backward-seeded traversals combined, while boundary
(ignorable) half-edges never set either flag and never occur in an emitted
point. -/
theorem traversal_coverage {n : Nat} {m : Mesh n} {fuel : Nat}
    {sF : TravState n} {spl : List (Spline n)}
    (hwf : WF m) (h : createBezierTopo m fuel = .ok (sF, spl)) :
    (∀ l : Fin n, ignorable m l = false →
      sF.enteredCount l = 1 ∧ sF.exitedCount l = 1) ∧
    (∀ l : Fin n, ignorable m l = true →
      sF.enteredCount l = 0 ∧ sF.exitedCount l = 0) ∧
    (∀ sp ∈ spl, ∀ e ∈ sp.points,
      ignorable m e.loop = false ∧ ignorable m e.prevLoop = false) := by
  obtain ⟨hcover, hsym, _, _⟩ := hwf
  unfold createBezierTopo at h
  obtain ⟨hinv, _, hcov, hspl⟩ :=
    scanFaces_spec hsym m.faces TravState.init [] sF spl h Inv.init
  refine ⟨fun l hl => ?_, fun l hl => hinv.2 l hl, fun sp hsp e he => ?_⟩
  · obtain ⟨h1, h2⟩ := hcov l (hcover l) hl
    obtain ⟨h3, h4⟩ := hinv.1 l
    omega
  · rcases hspl sp hsp with hmem | hgood
    · exact absurd hmem (List.not_mem_nil sp)
    · exact hgood e he

/-- Witness for the coverage theorem at the two-quad mesh `M2`, read off at
interior half-edge 0. -/
theorem traversal_coverage_witness :
    WF M2 ∧ ignorable M2 0 = false ∧
    ∃ (sF : TravState 8) (spl : List (Spline 8)),
      createBezierTopo M2 17 = .ok (sF, spl) ∧
      sF.enteredCount 0 = 1 ∧ sF.exitedCount 0 = 1 := by
  refine ⟨by decide, by decide, ?_⟩
  cases hEq : createBezierTopo M2 17 with
  | error e =>
    have hok : exceptOk (createBezierTopo M2 17) = true := by decide
    rw [hEq] at hok
    simp [exceptOk] at hok
  | ok p =>
    obtain ⟨sF, spl⟩ := p
    exact ⟨sF, spl, rfl, (traversal_coverage (m := M2) (by decide) hEq).1 0 (by decide)⟩

/-- A step result that maps (under `Except.map`/`Option.map`) onto
`.ok (some true)` is `.ok (some o)` for some `o`.  Lets concrete step
results be recovered without deciding equality of function-valued
states. -/
theorem stepOk_shape {n : Nat} {x : Except PyErr (Option (StepOut n))}
    (h : x.map (fun w => w.map (fun _ => true)) = .ok (some true)) :
    ∃ o : StepOut n, x = .ok (some o) := by
  cases x with
  | error e => simp [Except.map] at h
  | ok w =>
    cases w with
    | none => simp [Except.map] at h
    | some o => exact ⟨o, rfl⟩

/-- Counterexample to C2 as stated: on the three-quad strip, the backward
step at half-edge 4 (whose `entered` flag is false, so the closure check
passes) leaves `exited[4]` at 0 and instead sets `entered[4]` to 1; the
exited mark lands on the post-walk half-edge 6. -/
theorem backward_marks_cex :
    TravState.init.entered (4 : Fin 12) = false ∧
    (backStep Mstrip TravState.init 4).map
      (fun w => w.map (fun q : StepOut 12 => (q.state.exitedCount 4,
        q.state.enteredCount 4, q.state.exitedCount 6, q.em))) =
      .ok (some (0, 1, 1, (⟨6, 8, true⟩ : Emission 12))) := by decide

/-- C2 amended: in the backward step the closure check reads
`entered[current]`, and the flag set to true immediately after that check
(before the prev-walk) is `entered[current]`, not `exited[current]`; the
exited mark goes to the post-walk half-edge (this is what replaces the
forward step's entered-marking of the post-walk half-edge), so
`exited[current]` changes only when current happens to be its own
post-walk half-edge. -/
theorem backward_step_marks {n : Nat} {m : Mesh n} {s : TravState n} {l : Fin n}
    {o : StepOut n} (h : backStep m s l = .ok (some o)) :
    s.entered l = false ∧
    o.state.enteredCount l = s.enteredCount l + 1 ∧
    o.state.exitedCount o.em.prevLoop = s.exitedCount o.em.prevLoop + 1 ∧
    (∀ l' : Fin n, l' ≠ o.em.prevLoop → o.state.exitedCount l' = s.exitedCount l') := by
  obtain ⟨hle, he0, he1, hx0, hx1, hen, hxn, _, _⟩ := backStep_counts h
  exact ⟨(TravState.entered_false_iff s l).mpr he0, he1, hx1, hxn⟩

/-- Witness for the amended backward-step description, at the three-quad
strip, seed half-edge 4. -/
theorem backward_step_marks_witness :
    ∃ o : StepOut 12, backStep Mstrip TravState.init 4 = .ok (some o) ∧
      (TravState.init.entered (4 : Fin 12) = false ∧
       o.state.enteredCount 4 = (TravState.init : TravState 12).enteredCount 4 + 1 ∧
       o.state.exitedCount o.em.prevLoop =
         (TravState.init : TravState 12).exitedCount o.em.prevLoop + 1 ∧
       ∀ l' : Fin 12, l' ≠ o.em.prevLoop →
         o.state.exitedCount l' = (TravState.init : TravState 12).exitedCount l') := by
  obtain ⟨o, hEq⟩ := stepOk_shape (x := backStep Mstrip TravState.init 4) (by decide)
  exact ⟨o, hEq, backward_step_marks hEq⟩

/-- Counterexample to C4: `M3` has an edge (edge 0) whose radial list holds
three distinct half-edges, yet the run does not fail — it completes and
produces a spline list.  (No StructuralError exists in the code at all.) -/
theorem nonmanifold_not_rejected_cex :
    (edgeLinkLoops M3 0).length = 3 ∧ (edgeLinkLoops M3 0).Nodup ∧
    topoSplines M3 25 =
      .ok [⟨[⟨0, 4, false⟩, ⟨4, 0, true⟩], true⟩, ⟨[⟨8, 0, true⟩], true⟩] := by
  decide

/-- C4 amended: the code never rejects a non-2-manifold edge —
`get_celtic_twists` only classifies: every edge with at least one radial
half-edge (even more than two) is classified `TWIST_CW`, and the run
proceeds to traversal regardless. -/
theorem twists_no_rejection {n : Nat} (m : Mesh n) (e : Nat)
    (h1 : e < m.nEdges) (h2 : (edgeLinkLoops m e).isEmpty = false) :
    (getCelticTwists m)[e]? = some Twist.TWIST_CW := by
  unfold getCelticTwists
  rw [List.getElem?_map, List.getElem?_range h1]
  have h3 : edgeLinkLoops m e ≠ [] := by
    intro hnil
    rw [hnil] at h2
    simp at h2
  simp [h2, h3]

/-- Witness for the amended twist-classification fact at `M3`'s triple
edge. -/
theorem twists_no_rejection_witness :
    0 < M3.nEdges ∧ (edgeLinkLoops M3 0).isEmpty = false ∧
    (getCelticTwists M3)[0]? = some Twist.TWIST_CW :=
  ⟨by decide, by decide, twists_no_rejection M3 0 (by decide) (by decide)⟩

/-- C10: the forward step recomputes the direction by comparing the landing
half-edge's head vertex with the crossed half-edge's own head vertex,
whereas the backward step compares it with the head vertex of the
next-in-face successor of the crossed half-edge (the vertex recorded just
before the final prev-step of the boundary-skip walk) — the other end of
the crossed edge. -/
theorem direction_vertices {n : Nat} {m : Mesh n} {s : TravState n} {l : Fin n}
    (hnp : ∀ l0 : Fin n, m.nextOf (m.prevOf l0) = l0) :
    (∀ o : StepOut n, fwdStep m s l = .ok (some o) →
      o.em.forward = (m.vertOf o.em.loop == m.vertOf o.em.prevLoop)) ∧
    (∀ o : StepOut n, backStep m s l = .ok (some o) →
      o.em.forward = (m.vertOf o.em.loop == m.vertOf (m.nextOf o.em.prevLoop))) := by
  constructor
  · intro o h
    obtain ⟨_, l1, l2, _, _, _, _, ho⟩ := fwdStep_some h
    subst ho
    rfl
  · intro o h
    obtain ⟨_, v, r, l2, hwalk, _, _, _, ho⟩ := backStep_some h
    obtain ⟨_, l0, hprev, hv⟩ := walkPrev_spec hwalk
    subst ho
    show (m.vertOf l2 == v) = (m.vertOf l2 == m.vertOf (m.nextOf r))
    rw [hv, ← hprev, hnp l0]

/-- Witness for the direction-vertex comparison at `M2`: one forward step
from half-edge 0 and one backward step from half-edge 4. -/
theorem direction_vertices_witness :
    (∀ l0 : Fin 8, M2.nextOf (M2.prevOf l0) = l0) ∧
    (∃ o : StepOut 8, fwdStep M2 TravState.init 0 = .ok (some o) ∧
      o.em.forward = (M2.vertOf o.em.loop == M2.vertOf o.em.prevLoop)) ∧
    (∃ o : StepOut 8, backStep M2 TravState.init 4 = .ok (some o) ∧
      o.em.forward = (M2.vertOf o.em.loop == M2.vertOf (M2.nextOf o.em.prevLoop))) := by
  obtain ⟨oF, hF⟩ := stepOk_shape (x := fwdStep M2 TravState.init 0) (by decide)
  obtain ⟨oB, hB⟩ := stepOk_shape (x := backStep M2 TravState.init 4) (by decide)
  exact ⟨by decide,
    ⟨oF, hF, (direction_vertices (l := 0) (by decide)).1 oF hF⟩,
    ⟨oB, hB, (direction_vertices (l := 4) (by decide)).2 oB hB⟩⟩

section Termination

variable {n : Nat} {m : Mesh n} {s : TravState n} {l : Fin n} {o : StepOut n}

/-- Number of unmarked (half-edge, direction) pairs: the termination
measure of `make_loop`'s main loop. -/
def mu (s : TravState n) : Nat :=
  (Finset.univ : Finset (Fin n)).sum
    (fun i => (if s.enteredCount i = 0 then 1 else 0) +
              (if s.exitedCount i = 0 then 1 else 0))

theorem mu_le (s : TravState n) : mu s ≤ 2 * n := by
  have h : mu s ≤ (Finset.univ : Finset (Fin n)).sum (fun _ => 2) := by
    apply Finset.sum_le_sum
    intro i _
    split <;> split <;> omega
  have h2 : (Finset.univ : Finset (Fin n)).sum (fun _ : Fin n => 2) = 2 * n := by
    simp [Finset.sum_const, Finset.card_univ, Nat.mul_comm]
  omega

theorem mu_markEntered_le (s : TravState n) (l : Fin n) :
    mu (s.markEntered l) ≤ mu s := by
  apply Finset.sum_le_sum
  intro i _
  by_cases hil : i = l
  · subst hil
    rw [TravState.markEntered_exitedCount, TravState.markEntered_enteredCount, if_pos rfl]
    simp
  · rw [TravState.markEntered_exitedCount, TravState.markEntered_enteredCount, if_neg hil]

theorem mu_markExited_le (s : TravState n) (l : Fin n) :
    mu (s.markExited l) ≤ mu s := by
  apply Finset.sum_le_sum
  intro i _
  by_cases hil : i = l
  · subst hil
    rw [TravState.markExited_enteredCount, TravState.markExited_exitedCount, if_pos rfl]
    simp
  · rw [TravState.markExited_enteredCount, TravState.markExited_exitedCount, if_neg hil]

theorem mu_markExited_lt (s : TravState n) (l : Fin n) (h : s.exitedCount l = 0) :
    mu (s.markExited l) < mu s := by
  apply Finset.sum_lt_sum
  · intro i _
    by_cases hil : i = l
    · subst hil
      rw [TravState.markExited_enteredCount, TravState.markExited_exitedCount, if_pos rfl]
      simp
    · rw [TravState.markExited_enteredCount, TravState.markExited_exitedCount, if_neg hil]
  · refine ⟨l, Finset.mem_univ l, ?_⟩
    rw [TravState.markExited_enteredCount, TravState.markExited_exitedCount,
      if_pos rfl, h]
    simp

theorem mu_markEntered_lt (s : TravState n) (l : Fin n) (h : s.enteredCount l = 0) :
    mu (s.markEntered l) < mu s := by
  apply Finset.sum_lt_sum
  · intro i _
    by_cases hil : i = l
    · subst hil
      rw [TravState.markEntered_exitedCount, TravState.markEntered_enteredCount, if_pos rfl]
      simp
    · rw [TravState.markEntered_exitedCount, TravState.markEntered_enteredCount, if_neg hil]
  · refine ⟨l, Finset.mem_univ l, ?_⟩
    rw [TravState.markEntered_exitedCount, TravState.markEntered_enteredCount,
      if_pos rfl, h]
    simp

/-- Each successful non-closing forward step strictly decreases the number
of unmarked pairs. -/
theorem fwdStep_mu (h : fwdStep m s l = .ok (some o)) : mu o.state < mu s := by
  obtain ⟨hex, l1, l2, _, _, _, _, ho⟩ := fwdStep_some h
  subst ho
  have h1 := mu_markEntered_le (s.markExited l) l1
  have h2 := mu_markExited_lt s l ((TravState.exited_false_iff s l).mp hex)
  show mu ((s.markExited l).markEntered l1) < mu s
  omega

/-- Each successful non-closing backward step strictly decreases the number
of unmarked pairs. -/
theorem backStep_mu (h : backStep m s l = .ok (some o)) : mu o.state < mu s := by
  obtain ⟨hent, v, r, l2, _, _, _, _, ho⟩ := backStep_some h
  subst ho
  have h1 := mu_markExited_le (s.markEntered l) r
  have h2 := mu_markEntered_lt s l ((TravState.entered_false_iff s l).mp hent)
  show mu ((s.markEntered l).markExited r) < mu s
  omega

/-- An injective map on `Fin n` returns to its starting point within `n`
iterations. -/
theorem iterate_cycle {f : Fin n → Fin n} (hf : Function.Injective f) (x : Fin n) :
    ∃ k : Nat, 1 ≤ k ∧ k ≤ n ∧ f^[k] x = x := by
  have hcard : Fintype.card (Fin n) < Fintype.card (Fin (n + 1)) := by simp
  obtain ⟨i, j, hne, hEq⟩ :=
    Fintype.exists_ne_map_eq_of_card_lt (fun i : Fin (n + 1) => f^[i.val] x) hcard
  have key : ∀ a b : Fin (n + 1), a.val < b.val → f^[a.val] x = f^[b.val] x →
      ∃ k : Nat, 1 ≤ k ∧ k ≤ n ∧ f^[k] x = x := by
    intro a b hab hEq2
    have hb := b.isLt
    refine ⟨b.val - a.val, by omega, by omega, ?_⟩
    apply hf.iterate a.val
    rw [← Function.iterate_add_apply]
    have hsum : a.val + (b.val - a.val) = b.val := by omega
    rw [hsum]
    exact hEq2.symm
  rcases Nat.lt_or_ge i.val j.val with hlt | hge
  · exact key i j hlt hEq
  · have hlt2 : j.val < i.val := by
      rcases Nat.lt_or_ge j.val i.val with h2 | h2
      · exact h2
      · exact absurd (Fin.ext (by omega)) hne
    exact key j i hlt2 hEq.symm

/-- If some iterate of `nextOf` within the fuel bound is non-ignorable, the
forward walk succeeds. -/
theorem walkNext_hit :
    ∀ (fuel : Nat) (l : Fin n) (j : Nat), 1 ≤ j → j ≤ fuel →
      ignorable m (m.nextOf^[j] l) = false →
      ∃ r, walkNext m fuel l = some r := by
  intro fuel
  induction fuel with
  | zero => intro l j h1 h2 _; omega
  | succ fuel ih =>
    intro l j h1 h2 hj
    by_cases hig : ignorable m (m.nextOf l) = true
    · have hj1 : j ≠ 1 := by
        intro hh
        subst hh
        rw [Function.iterate_one] at hj
        rw [hj] at hig
        cases hig
      have h4 : m.nextOf^[j - 1] (m.nextOf l) = m.nextOf^[j] l := by
        rw [← Function.iterate_succ_apply]
        congr 1
        omega
      obtain ⟨r, hr⟩ := ih (m.nextOf l) (j - 1) (by omega) (by omega)
        (by rw [h4]; exact hj)
      refine ⟨r, ?_⟩
      simp only [walkNext]
      rw [if_pos hig]
      exact hr
    · refine ⟨m.nextOf l, ?_⟩
      simp only [walkNext]
      rw [if_neg hig]

/-- If some iterate of `prevOf` within the fuel bound is non-ignorable, the
backward walk succeeds. -/
theorem walkPrev_hit :
    ∀ (fuel : Nat) (l : Fin n) (j : Nat), 1 ≤ j → j ≤ fuel →
      ignorable m (m.prevOf^[j] l) = false →
      ∃ p, walkPrev m fuel l = some p := by
  intro fuel
  induction fuel with
  | zero => intro l j h1 h2 _; omega
  | succ fuel ih =>
    intro l j h1 h2 hj
    by_cases hig : ignorable m (m.prevOf l) = true
    · have hj1 : j ≠ 1 := by
        intro hh
        subst hh
        rw [Function.iterate_one] at hj
        rw [hj] at hig
        cases hig
      have h4 : m.prevOf^[j - 1] (m.prevOf l) = m.prevOf^[j] l := by
        rw [← Function.iterate_succ_apply]
        congr 1
        omega
      obtain ⟨p, hp⟩ := ih (m.prevOf l) (j - 1) (by omega) (by omega)
        (by rw [h4]; exact hj)
      refine ⟨p, ?_⟩
      simp only [walkPrev]
      rw [if_pos hig]
      exact hp
    · refine ⟨(m.vertOf l, m.prevOf l), ?_⟩
      simp only [walkPrev]
      rw [if_neg hig]

/-- With fuel `n` the forward walk from a non-ignorable half-edge always
succeeds on a mesh whose `nextOf` is injective. -/
theorem walkNext_total (hinj : Function.Injective m.nextOf)
    (hl : ignorable m l = false) : ∃ r, walkNext m n l = some r := by
  obtain ⟨k, hk1, hk2, hk3⟩ := iterate_cycle hinj l
  exact walkNext_hit n l k hk1 hk2 (by rw [hk3]; exact hl)

/-- With fuel `n` the backward walk from a non-ignorable half-edge always
succeeds on a mesh whose `prevOf` is injective. -/
theorem walkPrev_total (hinj : Function.Injective m.prevOf)
    (hl : ignorable m l = false) : ∃ p, walkPrev m n l = some p := by
  obtain ⟨k, hk1, hk2, hk3⟩ := iterate_cycle hinj l
  exact walkPrev_hit n l k hk1 hk2 (by rw [hk3]; exact hl)

/-- The forward step can only run out of fuel through its inner walk, which
cannot happen on a well-formed mesh. -/
theorem fwdStep_not_outOfFuel (hinj : Function.Injective m.nextOf)
    (hl : ignorable m l = false) : fwdStep m s l ≠ .error .outOfFuel := by
  intro h
  unfold fwdStep at h
  split at h
  · simp at h
  · split at h
    next heq =>
      obtain ⟨r, hr⟩ := walkNext_total hinj hl
      rw [heq] at hr
      simp at hr
    next l1 heq =>
      split at h
      · simp at h
      · split at h
        · simp at h
        · split at h <;> simp at h

/-- The backward step can only run out of fuel through its inner walk,
which cannot happen on a well-formed mesh. -/
theorem backStep_not_outOfFuel (hinj : Function.Injective m.prevOf)
    (hl : ignorable m l = false) : backStep m s l ≠ .error .outOfFuel := by
  intro h
  unfold backStep at h
  split at h
  · simp at h
  · split at h
    next heq =>
      obtain ⟨p, hp⟩ := walkPrev_total hinj hl
      rw [heq] at hp
      simp at hp
    next v r heq =>
      split at h
      · simp at h
      · split at h
        · simp at h
        · split at h <;> simp at h

/-- `make_loop`'s main loop performs at most one iteration per unmarked
(half-edge, direction) pair: with fuel exceeding the measure it never runs
out. -/
theorem makeLoopAux_no_outOfFuel
    (hsym : ∀ a b : Fin n, b ∈ m.linkLoops a → a ∈ m.linkLoops b)
    (hinjN : Function.Injective m.nextOf)
    (hinjP : Function.Injective m.prevOf) :
    ∀ (fuel : Nat) (l : Fin n) (fwd : Bool) (s : TravState n)
      (acc : List (Emission n)),
      ignorable m l = false → mu s < fuel →
      makeLoopAux m fuel l fwd s acc ≠ .error .outOfFuel := by
  intro fuel
  induction fuel with
  | zero => intro l fwd s acc hl hmu _; omega
  | succ fuel ih =>
    intro l fwd s acc hl hmu h
    unfold makeLoopAux at h
    split at h
    next e heq =>
      have he : e = PyErr.outOfFuel := Except.error.inj h
      subst he
      cases fwd with
      | true =>
        rw [if_pos rfl] at heq
        exact fwdStep_not_outOfFuel hinjN hl heq
      | false =>
        rw [if_neg (by simp)] at heq
        exact backStep_not_outOfFuel hinjP hl heq
    next heq => simp at h
    next o heq =>
      have hmu2 : mu o.state < mu s := by
        cases fwd with
        | true => exact fwdStep_mu (by rw [if_pos rfl] at heq; exact heq)
        | false => exact backStep_mu (by rw [if_neg (by simp)] at heq; exact heq)
      have hloop : ignorable m o.em.loop = false := by
        cases fwd with
        | true =>
          have heqf : fwdStep m s l = .ok (some o) := by
            rw [if_pos rfl] at heq; exact heq
          obtain ⟨_, _, _, _, _, _, _, _, hmem⟩ := fwdStep_counts heqf
          exact crossing_not_ignorable hsym hmem
        | false =>
          have heqb : backStep m s l = .ok (some o) := by
            rw [if_neg (by simp)] at heq; exact heq
          obtain ⟨_, _, _, _, _, _, _, _, hmem⟩ := backStep_counts heqb
          exact crossing_not_ignorable hsym hmem
      exact ih o.em.loop o.em.forward o.state (acc ++ [o.em]) hloop (by omega) h

end Termination

/-- C5: on a well-formed mesh a seeded traversal terminates — with fuel
2·n+1 the main loop never exhausts its fuel, because the visited maps are
monotone (each iteration unmarks one of at most 2·n (half-edge, direction)
pairs) and the inner boundary-skip walks terminate; a cycle closes exactly
when the step's closure check fires; an immediately-closing call emits no
points at all, and every assembled spline is flagged cyclic instead of
ending with an explicit duplicate of its first point. -/
theorem traversal_terminates {n : Nat} {m : Mesh n} (hwf : WF m)
    (l : Fin n) (hl : ignorable m l = false) (fwd : Bool) (s : TravState n) :
    makeLoopAux m (2 * n + 1) l fwd s [] ≠ .error .outOfFuel ∧
    (fwdStep m s l = .ok none ↔ s.exited l = true) ∧
    (backStep m s l = .ok none ↔ s.entered l = true) ∧
    (∀ s2 sp, makeLoop m (2 * n + 1) l fwd s = .ok (s2, sp) → sp.cyclic = true) ∧
    ((if fwd then s.exited l else s.entered l) = true →
      makeLoop m (2 * n + 1) l fwd s = .ok (s, ⟨[], true⟩)) := by
  obtain ⟨hcov, hsym, hnp, hpn⟩ := hwf
  have hinjN : Function.Injective m.nextOf := Function.LeftInverse.injective hpn
  have hinjP : Function.Injective m.prevOf := Function.LeftInverse.injective hnp
  refine ⟨?_, fwdStep_none_iff, backStep_none_iff, ?_, ?_⟩
  · apply makeLoopAux_no_outOfFuel hsym hinjN hinjP (2 * n + 1) l fwd s [] hl
    have := mu_le s
    omega
  · intro s2 sp hsp
    obtain ⟨pts, _, hEq⟩ := makeLoop_ok hsp
    rw [hEq]
  · intro hflag
    have hstep : (if fwd then fwdStep m s l else backStep m s l) = .ok none := by
      cases fwd with
      | true => rw [if_pos rfl]; exact fwdStep_none_iff.mpr (by simpa using hflag)
      | false => rw [if_neg (by simp)]; exact backStep_none_iff.mpr (by simpa using hflag)
    have haux : makeLoopAux m (2 * n + 1) l fwd s [] = .ok (s, []) := by
      simp only [makeLoopAux]
      rw [hstep]
    unfold makeLoop
    rw [haux]

/-- Witness for termination on `M2`: the forward-seeded traversal from
half-edge 0 with fuel 2·8+1 does not exhaust its fuel. -/
theorem traversal_terminates_witness :
    WF M2 ∧ ignorable M2 (0 : Fin 8) = false ∧
    makeLoopAux M2 (2 * 8 + 1) 0 true TravState.init [] ≠ .error .outOfFuel :=
  ⟨by decide, by decide,
    (traversal_terminates (m := M2) (by decide) 0 (by decide) true TravState.init).1⟩

theorem Vec3.dot_self_nonneg (v : Vec3) : 0 ≤ Vec3.dot v v := by
  unfold Vec3.dot
  nlinarith [sq_nonneg (v 0), sq_nonneg (v 1), sq_nonneg (v 2)]

theorem Vec3.normSq_eq_zero_iff (v : Vec3) : Vec3.dot v v = 0 ↔ v = 0 := by
  constructor
  · intro h
    have h0 : v 0 = 0 ∧ v 1 = 0 ∧ v 2 = 0 := by
      unfold Vec3.dot at h
      refine ⟨?_, ?_, ?_⟩ <;>
        nlinarith [mul_self_nonneg (v 0), mul_self_nonneg (v 1), mul_self_nonneg (v 2)]
    funext i
    fin_cases i
    · simpa using h0.1
    · simpa using h0.2.1
    · simpa using h0.2.2
  · intro h
    rw [h]
    unfold Vec3.dot
    simp

theorem Vec3.norm_eq_zero_iff (v : Vec3) : Vec3.norm v = 0 ↔ v = 0 := by
  unfold Vec3.norm
  rw [Real.sqrt_eq_zero (Vec3.dot_self_nonneg v)]
  exact Vec3.normSq_eq_zero_iff v

theorem Vec3.norm_nonneg (v : Vec3) : 0 ≤ Vec3.norm v := Real.sqrt_nonneg _

theorem Vec3.dot_smul_self (r : ℝ) (v : Vec3) :
    Vec3.dot (r • v) (r • v) = r ^ 2 * Vec3.dot v v := by
  unfold Vec3.dot
  simp only [Pi.smul_apply, smul_eq_mul]
  ring

theorem Vec3.norm_smul (r : ℝ) (v : Vec3) :
    Vec3.norm (r • v) = |r| * Vec3.norm v := by
  unfold Vec3.norm
  rw [Vec3.dot_smul_self, Real.sqrt_mul (sq_nonneg r), Real.sqrt_sq_eq_abs]

theorem Vec3.norm_normalize {v : Vec3} (h : v ≠ 0) :
    Vec3.norm (Vec3.normalize v) = 1 := by
  have hn : Vec3.norm v ≠ 0 := fun hh => h ((Vec3.norm_eq_zero_iff v).mp hh)
  unfold Vec3.normalize
  rw [if_neg hn, Vec3.norm_smul, abs_inv, abs_of_nonneg (Vec3.norm_nonneg v),
    inv_mul_cancel₀ hn]

theorem Vec3.normalize_zero : Vec3.normalize (0 : Vec3) = 0 := by
  unfold Vec3.normalize
  split <;> simp

theorem Vec3.norm_neg_eq (v : Vec3) : Vec3.norm (-v) = Vec3.norm v := by
  unfold Vec3.norm
  congr 1
  unfold Vec3.dot
  simp only [Pi.neg_apply]
  ring

theorem Vec3.normalize_neg (v : Vec3) : Vec3.normalize (-v) = -Vec3.normalize v := by
  unfold Vec3.normalize
  rw [Vec3.norm_neg_eq]
  by_cases h : Vec3.norm v = 0
  · rw [if_pos h, if_pos h]
  · rw [if_neg h, if_neg h, smul_neg]

theorem Vec3.cross_neg_right (v w : Vec3) :
    Vec3.cross v (-w) = -Vec3.cross v w := by
  funext i
  fin_cases i <;> simp [Vec3.cross] <;> ring

theorem Vec3.normalize_eval {v : Vec3} {r : ℝ} (hr : 0 < r)
    (h : Vec3.dot v v = r ^ 2) : Vec3.normalize v = r⁻¹ • v := by
  have hnorm : Vec3.norm v = r := by
    unfold Vec3.norm
    rw [h, Real.sqrt_sq hr.le]
  unfold Vec3.normalize
  rw [hnorm, if_neg (ne_of_gt hr)]

/-- C7: in ALIGNED handle mode every emitted control point carries both
handles, and they are point-symmetric about the position:
handle_right − position = position − handle_left, for every mesh,
direction, crossing_angle and crossing_strength. -/
theorem handle_symmetry {n : Nat} (g : GeoMesh n) (m : Mesh n) (cfg : Config)
    (fuel : Nat) (spl : List (Spline n))
    (hA : cfg.handleType = HandleType.ALIGNED)
    (hrun : topoSplines m fuel = .ok spl)
    (sp : Spline n) (hsp : sp ∈ spl) (e : Emission n) (he : e ∈ sp.points) :
    ∃ hl hr : Vec3,
      (emissionPoint g m cfg e).handleLeftCo = some hl ∧
      (emissionPoint g m cfg e).handleRightCo = some hr ∧
      hr - (emissionPoint g m cfg e).co = (emissionPoint g m cfg e).co - hl := by
  have hne : ¬ cfg.handleType = HandleType.AUTO := by
    rw [hA]
    intro hh
    cases hh
  refine ⟨handleLeftPos g m cfg e, handleRightPos g m cfg e, ?_, ?_, ?_⟩
  · rw [emissionPoint, if_neg hne]
  · rw [emissionPoint, if_neg hne]
  · rw [emissionPoint, if_neg hne]
    show handleRightPos g m cfg e - position g m cfg e =
      position g m cfg e - handleLeftPos g m cfg e
    rw [handleRightPos, handleLeftPos]
    abel

/-- Witness for handle symmetry: the first point emitted on `M2` in ALIGNED
mode. -/
theorem handle_symmetry_witness :
    cfgAligned.handleType = HandleType.ALIGNED ∧
    topoSplines M2 17 = .ok splM2 ∧ spM2 ∈ splM2 ∧ em1 ∈ spM2.points ∧
    ∃ hl hr : Vec3,
      (emissionPoint gM2 M2 cfgAligned em1).handleLeftCo = some hl ∧
      (emissionPoint gM2 M2 cfgAligned em1).handleRightCo = some hr ∧
      hr - (emissionPoint gM2 M2 cfgAligned em1).co =
        (emissionPoint gM2 M2 cfgAligned em1).co - hl :=
  ⟨rfl, by decide, by decide, by decide,
    handle_symmetry gM2 M2 cfgAligned 17 splM2 rfl (by decide) spM2 (by decide)
      em1 (by decide)⟩

/-- C6 amended: every emitted position equals the edge midpoint plus the
direction-selected weave offset times the normalized sum of the normals at
the crossed and pre-crossing half-edges; the displacement is a multiple of
that averaged normal, and — provided the two normals do not cancel — its
length is exactly the magnitude of the applicable offset. -/
theorem offset_exactness {n : Nat} (g : GeoMesh n) (m : Mesh n) (cfg : Config)
    (fuel : Nat) (spl : List (Spline n)) (hrun : topoSplines m fuel = .ok spl)
    (sp : Spline n) (hsp : sp ∈ spl) (e : Emission n) (he : e ∈ sp.points) :
    position g m cfg e =
      midpointOf g (m.edgeOf e.loop) + offsetOf cfg e • avgNormal g e ∧
    (∃ r : ℝ, position g m cfg e - midpointOf g (m.edgeOf e.loop) =
      r • avgNormal g e) ∧
    (g.loopNormal e.loop + g.loopNormal e.prevLoop ≠ 0 →
      Vec3.norm (position g m cfg e - midpointOf g (m.edgeOf e.loop)) =
        |offsetOf cfg e|) := by
  have hdisp : position g m cfg e - midpointOf g (m.edgeOf e.loop) =
      offsetOf cfg e • avgNormal g e := by
    rw [position]
    abel
  refine ⟨rfl, ⟨offsetOf cfg e, hdisp⟩, fun hnz => ?_⟩
  rw [hdisp, Vec3.norm_smul, avgNormal, Vec3.norm_normalize hnz, mul_one]

/-- Witness for the amended offset exactness on `M2` with non-cancelling
normals. -/
theorem offset_exactness_witness :
    topoSplines M2 17 = .ok splM2 ∧ spM2 ∈ splM2 ∧ em1 ∈ spM2.points ∧
    gM2.loopNormal em1.loop + gM2.loopNormal em1.prevLoop ≠ 0 ∧
    Vec3.norm (position gM2 M2 cfgAligned em1 -
      midpointOf gM2 (M2.edgeOf em1.loop)) = |offsetOf cfgAligned em1| := by
  have hnz : gM2.loopNormal em1.loop + gM2.loopNormal em1.prevLoop ≠ 0 := by
    intro h
    have h2 := congrFun h 2
    simp [gM2] at h2
  exact ⟨by decide, by decide, by decide, hnz,
    (offset_exactness gM2 M2 cfgAligned 17 splM2 (by decide) spM2 (by decide)
      em1 (by decide)).2.2 hnz⟩

/-- Counterexample to unconditional offset exactness: on `M2` with
cancelling normals at the shared edge, the first emitted point coincides
with the edge midpoint (distance 0) while the applicable weave offset is
1. -/
theorem offset_exactness_cex :
    topoSplines M2 17 = .ok splM2 ∧ spM2 ∈ splM2 ∧ em1 ∈ spM2.points ∧
    em1.forward = false ∧ offsetOf cfgAligned em1 = 1 ∧
    Vec3.norm (position gM2deg M2 cfgAligned em1 -
      midpointOf gM2deg (M2.edgeOf em1.loop)) = 0 ∧
    (0 : ℝ) ≠ |offsetOf cfgAligned em1| := by
  have hL : gM2deg.loopNormal em1.loop = ![0, 0, -1] := by
    show (if (4 : Fin 8) = (4 : Fin 8) then (![0, 0, -1] : Vec3) else ![0, 0, 1]) =
      ![0, 0, -1]
    rw [if_pos rfl]
  have hP : gM2deg.loopNormal em1.prevLoop = ![0, 0, 1] := by
    show (if (0 : Fin 8) = (4 : Fin 8) then (![0, 0, -1] : Vec3) else ![0, 0, 1]) =
      ![0, 0, 1]
    rw [if_neg (by decide)]
  have hsum : gM2deg.loopNormal em1.loop + gM2deg.loopNormal em1.prevLoop = 0 := by
    rw [hL, hP]
    funext i
    fin_cases i <;> simp
  have h1 : avgNormal gM2deg em1 = 0 := by
    rw [avgNormal, hsum, Vec3.normalize_zero]
  have h2 : position gM2deg M2 cfgAligned em1 -
      midpointOf gM2deg (M2.edgeOf em1.loop) = 0 := by
    rw [position, h1, smul_zero]
    abel
  refine ⟨by decide, by decide, by decide, rfl, rfl, ?_, ?_⟩
  · rw [h2]
    exact (Vec3.norm_eq_zero_iff 0).mpr rfl
  · rw [show offsetOf cfgAligned em1 = 1 from rfl]
    norm_num

/-- C3 amended: in ALIGNED mode, for a backward step the tangent used for
the handles is indeed the negation of the normalized head-to-next-head
vector, but the binormal is the normalized cross product of the averaged
normal with the UN-negated tangent (the negation happens after the
binormal is computed) — equivalently, the negation of the normalized cross
product with the tangent actually used. -/
theorem aligned_backward_handles {n : Nat} (g : GeoMesh n) (m : Mesh n)
    (cfg : Config) (fuel : Nat) (spl : List (Spline n))
    (hrun : topoSplines m fuel = .ok spl) (sp : Spline n) (hsp : sp ∈ spl)
    (e : Emission n) (he : e ∈ sp.points) (hb : e.forward = false) :
    tangentUsed g m e = -tangentNormed g m e ∧
    binormalUsed g m e =
      -Vec3.normalize (Vec3.cross (avgNormal g e) (tangentUsed g m e)) := by
  have ht : tangentUsed g m e = -tangentNormed g m e := by
    rw [tangentUsed, hb]
    simp
  refine ⟨ht, ?_⟩
  rw [ht, Vec3.cross_neg_right, Vec3.normalize_neg, neg_neg, binormalUsed]

/-- Witness for the amended backward-handle description: the first (and
backward) emission on `M2`. -/
theorem aligned_backward_handles_witness :
    topoSplines M2 17 = .ok splM2 ∧ spM2 ∈ splM2 ∧ em1 ∈ spM2.points ∧
    em1.forward = false ∧
    (tangentUsed gM2 M2 em1 = -tangentNormed gM2 M2 em1 ∧
     binormalUsed gM2 M2 em1 =
       -Vec3.normalize (Vec3.cross (avgNormal gM2 em1) (tangentUsed gM2 M2 em1))) :=
  ⟨by decide, by decide, by decide, rfl,
    aligned_backward_handles gM2 M2 cfgAligned 17 splM2 (by decide) spM2
      (by decide) em1 (by decide) rfl⟩

/-- Counterexample to the claimed binormal: on `M2` the backward-step
binormal computed by the code is (0,−1,0), whereas the normalized cross
product of the averaged normal with the negated (actually used) tangent is
(0,1,0). -/
theorem aligned_backward_handles_cex :
    topoSplines M2 17 = .ok splM2 ∧ spM2 ∈ splM2 ∧ em1 ∈ spM2.points ∧
    em1.forward = false ∧
    binormalUsed gM2 M2 em1 ≠
      Vec3.normalize (Vec3.cross (avgNormal gM2 em1) (tangentUsed gM2 M2 em1)) := by
  have hsum : gM2.loopNormal em1.loop + gM2.loopNormal em1.prevLoop = ![0, 0, 2] := by
    show (![0, 0, 1] : Vec3) + ![0, 0, 1] = ![0, 0, 2]
    funext i
    fin_cases i <;> norm_num
  have havg : avgNormal gM2 em1 = ![0, 0, 1] := by
    rw [avgNormal, hsum,
      Vec3.normalize_eval (r := 2) (by norm_num) (by norm_num [Vec3.dot])]
    funext i
    fin_cases i <;> norm_num
  have htraw : gM2.vertCo (M2.vertOf (M2.nextOf em1.loop)) -
      gM2.vertCo (M2.vertOf em1.loop) = ![-1, 0, 0] := by
    show (![0, 0, 0] : Vec3) - ![1, 0, 0] = ![-1, 0, 0]
    funext i
    fin_cases i <;> norm_num
  have htn : tangentNormed gM2 M2 em1 = ![-1, 0, 0] := by
    rw [tangentNormed, htraw,
      Vec3.normalize_eval (r := 1) one_pos (by norm_num [Vec3.dot])]
    funext i
    fin_cases i <;> simp
  have hcr1 : Vec3.cross ![0, 0, 1] ![-1, 0, 0] = ![0, -1, 0] := by
    funext i
    fin_cases i <;> simp [Vec3.cross]
  have hbin : binormalUsed gM2 M2 em1 = ![0, -1, 0] := by
    rw [binormalUsed, havg, htn, hcr1,
      Vec3.normalize_eval (r := 1) one_pos (by norm_num [Vec3.dot])]
    funext i
    fin_cases i <;> simp
  have htu : tangentUsed gM2 M2 em1 = ![1, 0, 0] := by
    have : tangentUsed gM2 M2 em1 = -tangentNormed gM2 M2 em1 := by
      rw [tangentUsed, show em1.forward = false from rfl]
      simp
    rw [this, htn]
    funext i
    fin_cases i <;> norm_num
  have hcr2 : Vec3.cross ![0, 0, 1] ![1, 0, 0] = ![0, 1, 0] := by
    funext i
    fin_cases i <;> simp [Vec3.cross]
  have hcl : Vec3.normalize (Vec3.cross (avgNormal gM2 em1) (tangentUsed gM2 M2 em1)) =
      ![0, 1, 0] := by
    rw [havg, htu, hcr2,
      Vec3.normalize_eval (r := 1) one_pos (by norm_num [Vec3.dot])]
    funext i
    fin_cases i <;> simp
  refine ⟨by decide, by decide, by decide, rfl, ?_⟩
  rw [hbin, hcl]
  intro hc
  have h1 := congrFun hc 1
  simp at h1
  norm_num at h1

/-- Success of `create_bezier` depends only on the topological run. -/
theorem exceptOk_createBezier {n : Nat} (g : GeoMesh n) (m : Mesh n)
    (t : List Twist) (cfg : Config) (fuel : Nat) :
    exceptOk (createBezier g m t cfg fuel) = exceptOk (createBezierTopo m fuel) := by
  unfold createBezier
  cases h : createBezierTopo m fuel with
  | error e => rfl
  | ok p =>
    obtain ⟨a, b⟩ := p
    rfl

/-- C8 amended: `execute` performs no parameter validation and raises no
ConfigurationError — whether the run succeeds (and the traversal runs at
all) is independent of every configuration value, including out-of-range
crossing_angle and negative crossing_strength/thickness. -/
theorem no_config_validation {n : Nat} (g g2 : GeoMesh n) (m : Mesh n)
    (cfg cfg2 : Config) (fuel : Nat) :
    exceptOk (execute g m cfg fuel) = exceptOk (execute g2 m cfg2 fuel) := by
  unfold execute
  rw [exceptOk_createBezier, exceptOk_createBezier]

/-- Counterexample to the configuration-rejection claim: with
crossing_angle = 3 ∉ [0, π/2], crossing_strength = −1 < 0 and
thickness = −1 < 0, the run is not rejected — the traversal executes and
succeeds. -/
theorem config_not_rejected_cex :
    Real.pi / 2 < cfgBad.crossingAngle ∧ cfgBad.crossingStrength < 0 ∧
    cfgBad.thickness < 0 ∧
    exceptOk (execute gM2 M2 cfgBad 17) = true := by
  refine ⟨?_, ?_, ?_, ?_⟩
  · show Real.pi / 2 < 3
    have := Real.pi_lt_d2
    linarith
  · show (-1 : ℝ) < 0
    norm_num
  · show (-1 : ℝ) < 0
    norm_num
  · rw [show execute gM2 M2 cfgBad 17 =
        createBezier gM2 M2 (getCelticTwists M2) cfgBad 17 from rfl,
      exceptOk_createBezier]
    decide

/-- C9: the `twists` argument of `create_bezier` is never consumed:
running the spline-building routine with any two twist lists yields
identical spline point and handle sequences. -/
theorem twists_unused {n : Nat} (g : GeoMesh n) (m : Mesh n) (cfg : Config)
    (fuel : Nat) (t1 t2 : List Twist) :
    createBezier g m t1 cfg fuel = createBezier g m t2 cfg fuel := rfl

end CelticKnot
